import Mathlib

/-!
Shallow embedding of the synthetic-data generation core of the
`data_mining_master_2020` repository (`exercise_1/scripts/factories.py` and
`exercise_1/scripts/database_manager.py`).

Randomness is modelled by explicit oracle parameters: a sampled title list
stands for the output of `random.choices(SCIENTIST_TITLES ...)`, string-valued
oracles stand for the faker providers, and a `pick` oracle stands for the
`random.choices(prof_list)` draw.  Python exceptions are modelled with
`Except PyErr`.
-/

/-- Python runtime errors raised by the embedded code, together with the two
error names that the specification's taxonomy declares for these code paths
(`UnevenDistributionError`, `NoSupervisorAvailableError`); the latter two are
never produced by any definition below, mirroring their absence from the
source files. -/
inductive PyErr where
  | indexError
  | zeroDivisionError
  | unevenDistributionError
  | noSupervisorAvailableError
deriving DecidableEq, Repr

/-- Modelled from the spec: the fixed scientist rank catalog
(`constants.SCIENTIST_TITLES` of the missing `constants.py`).  The six rank
constants and their senior/junior split are exactly the ones used by
`database_manager._generate_and_insert_scientists_and_phds` (PROFESSOR,
ASSISTANT_PROFESSOR, ASSOCIATE_PROFESSOR, LECTURER, RESEARCHER,
LABORATORY_TEACHING_STAFF). -/
inductive Title where
  | professor
  | assistantProfessor
  | associateProfessor
  | lecturer
  | researcher
  | labTeachingStaff
deriving DecidableEq, Repr

/-- Modelled from the spec: the declared order of the scientist-title catalog
(keys of the grouping dict in `generate_scientists_per_title`). -/
def SCIENTIST_TITLES : List Title :=
  [.professor, .assistantProfessor, .associateProfessor,
   .lecturer, .researcher, .labTeachingStaff]

structure Address where
  address_id : Nat
  address_name : String
  address_number : String
  city : String
  country : String
  postal_code : String
deriving DecidableEq, Repr

/-- `AddressFactory.generate_addresses(n, start)`: one Address per
`address_id in range(start, n + start)`; the faker-provided fields come from
the oracle `fg`. -/
def generate_addresses :
    Nat → Nat → (Nat → String × String × String × String × String) → List Address
  | 0, _, _ => []
  | n + 1, start, fg =>
    { address_id := start, address_name := (fg 0).1, address_number := (fg 0).2.1,
      city := (fg 0).2.2.1, country := (fg 0).2.2.2.1, postal_code := (fg 0).2.2.2.2 } ::
    generate_addresses n (start + 1) (fun i => fg (i + 1))

/-- Modelled from the spec: the constant university name `constants.EKPA`
(`constants.py` is not under `src/`). -/
def EKPA : String := "EKPA"

structure Faculty where
  faculty_id : Nat
  name : String
  university_name : String
deriving DecidableEq, Repr

/-- The enumeration inside `FacultyFactory.generate_unique_faculties`, with an
explicit running id so it can be defined by structural recursion. -/
def faculties_from : List String → Nat → List Faculty
  | [], _ => []
  | nm :: rest, i =>
    { faculty_id := i, name := nm, university_name := EKPA } :: faculties_from rest (i + 1)

/-- `FacultyFactory.generate_unique_faculties()`: enumerates the faculty name
catalog with ids starting at 1 (`enumerate(c.FACULTIES["names"], start=1)`);
the catalog lives in the missing `constants.py`, so it is a parameter. -/
def generate_unique_faculties (names : List String) : List Faculty :=
  faculties_from names 1

structure Scientist where
  scientist_id : Nat
  title : Title
  name : String
  surname : String
deriving DecidableEq, Repr

/-- `ScientistFactory.generate_scientists(n, start)`:
`enumerate(random.choices(...), start=start)`.  The sampled title list `ts`
stands for the weighted draw (its length is the requested `n`) and `fg` for
the faker name oracle. -/
def generate_scientists : List Title → Nat → (Nat → String × String) → List Scientist
  | [], _, _ => []
  | t :: ts, start, fg =>
    { scientist_id := start, title := t, name := (fg 0).1, surname := (fg 0).2 } ::
    generate_scientists ts (start + 1) (fun i => fg (i + 1))

/-- One bucket of the grouping dict built by
`ScientistFactory.generate_scientists_per_title`: appending each scientist to
`mapper[sct.title]` in generation order makes bucket `k` the in-order sublist
of the scientists whose title is `k`. -/
def per_title (scs : List Scientist) (k : Title) : List Scientist :=
  scs.filter (fun sc => sc.title == k)

/-- `ScientistFactory.generate_scientists_per_title(n, start)`: the dict whose
keys are the catalog entries in declared order, each mapped to its bucket. -/
def generate_scientists_per_title (ts : List Title) (start : Nat)
    (fg : Nat → String × String) : List (Title × List Scientist) :=
  SCIENTIST_TITLES.map (fun k => (k, per_title (generate_scientists ts start fg) k))

/-- `prof_list` of `_generate_and_insert_scientists_and_phds`:
`scientists[PROFESSOR] + scientists[ASSISTANT_PROFESSOR] + scientists[ASSOCIATE_PROFESSOR]`. -/
def prof_list (scs : List Scientist) : List Scientist :=
  per_title scs .professor ++ per_title scs .assistantProfessor ++
    per_title scs .associateProfessor

/-- `student_list` of `_generate_and_insert_scientists_and_phds`:
`scientists[LECTURER] + scientists[RESEARCHER] + scientists[LABORATORY_TEACHING_STAFF]`. -/
def student_list (scs : List Scientist) : List Scientist :=
  per_title scs .lecturer ++ per_title scs .researcher ++ per_title scs .labTeachingStaff

/-- `plain_scientists = [sc for sc_list in scientists.values() for sc in sc_list]`;
dict value order is key insertion order, i.e. the catalog order. -/
def plain_scientists (scs : List Scientist) : List Scientist :=
  (SCIENTIST_TITLES.map (per_title scs)).flatten

structure PHD where
  phd_id : Nat
  date_received : String
  description : String
  title : String
  scientist_id : Option Nat
  supervisor_id : Option Nat
deriving DecidableEq, Repr

/-- `PHDFactory.generate_phds(n, start)`; the two foreign keys stay unset until
the stitching pass assigns them. -/
def generate_phds : Nat → Nat → (Nat → String × String × String) → List PHD
  | 0, _, _ => []
  | n + 1, start, fg =>
    { phd_id := start, date_received := (fg 0).1, description := (fg 0).2.1,
      title := (fg 0).2.2, scientist_id := none, supervisor_id := none } ::
    generate_phds n (start + 1) (fun i => fg (i + 1))

/-- `random.choices(prof_list)` followed by taking the drawn element: on an
empty population Python's `choices` raises `IndexError`; otherwise the random
draw (oracle `r`) selects an element of the list. -/
def choose_supervisor (profs : List Scientist) (r : Nat) : Except PyErr Scientist :=
  match profs with
  | [] => .error .indexError
  | p :: ps => .ok ((p :: ps).get ⟨r % (p :: ps).length, Nat.mod_lt _ (Nat.succ_pos _)⟩)

/-- The `for j in range(phd_ids)` loop of
`_generate_and_insert_scientists_and_phds`: walks the generated PHD batch and
`student_list` in lockstep (they have the same length by construction), sets
`phds[j].scientist_id` positionally and `phds[j].supervisor_id` from a
`random.choices(prof_list)` draw. -/
def assign_phds (profs : List Scientist) (pick : Nat → Nat) :
    List PHD → List Scientist → Nat → Except PyErr (List PHD)
  | [], _, _ => .ok []
  | _ :: _, [], _ => .ok []
  | phd :: phds, st :: sts, j =>
    match choose_supervisor profs (pick j) with
    | .error e => .error e
    | .ok sup =>
      match assign_phds profs pick phds sts (j + 1) with
      | .error e => .error e
      | .ok rest =>
        .ok ({ phd with
                scientist_id := some st.scientist_id
                supervisor_id := some sup.scientist_id } :: rest)

structure FacultyBatch where
  scientists : List Scientist
  phds : List PHD
deriving DecidableEq, Repr

/-- One iteration of the per-faculty loop of
`_generate_and_insert_scientists_and_phds`: scientist generation, grouping by
title, the junior/senior split, PHD generation and foreign-key assignment. -/
def stitch_faculty (ts : List Title) (sc_start phd_start : Nat)
    (scFg : Nat → String × String) (phdFg : Nat → String × String × String)
    (pick : Nat → Nat) : Except PyErr FacultyBatch :=
  let batch := generate_scientists ts sc_start scFg
  let students := student_list batch
  let profs := prof_list batch
  let phds0 := generate_phds students.length phd_start phdFg
  match assign_phds profs pick phds0 students 0 with
  | .error e => .error e
  | .ok phds => .ok { scientists := plain_scientists batch, phds := phds }

/-- The whole per-faculty loop of `_generate_and_insert_scientists_and_phds`:
one title sample per faculty; the scientist start id advances by `sc_per_fac`
and the PHD start id by the junior-set size after each faculty. -/
def stitch_all (sc_per_fac : Nat) (scFg : Nat → Nat → String × String)
    (phdFg : Nat → Nat → String × String × String) (pick : Nat → Nat → Nat) :
    List (List Title) → Nat → Nat → Except PyErr (List FacultyBatch)
  | [], _, _ => .ok []
  | ts :: rest, sc_start, phd_start =>
    match stitch_faculty ts sc_start phd_start (scFg 0) (phdFg 0) (pick 0) with
    | .error e => .error e
    | .ok fb =>
      match stitch_all sc_per_fac (fun i => scFg (i + 1)) (fun i => phdFg (i + 1))
          (fun i => pick (i + 1)) rest (sc_start + sc_per_fac)
          (phd_start + (student_list (generate_scientists ts sc_start (scFg 0))).length) with
      | .error e => .error e
      | .ok fbs => .ok (fb :: fbs)

structure Conference where
  conference_id : Nat
  title : String
  faculty_id : Nat
  address_id : Nat
deriving DecidableEq, Repr

/-- The loop of `ScientificCommunityDBManager._map_conferences`: `idx` is the
1-based enumeration counter, `fid` the running faculty id, `q` the precomputed
`conf_per_fac = conf_num // fac_num`; Python's `idx % conf_per_fac` raises
`ZeroDivisionError` when `conf_per_fac == 0`. -/
def map_conferences_loop (q : Nat) :
    List Conference → Nat → Nat → Except PyErr (List Conference)
  | [], _, _ => .ok []
  | conf :: rest, idx, fid =>
    if q = 0 then .error .zeroDivisionError
    else
      match map_conferences_loop q rest (idx + 1) (if idx % q = 0 then fid + 1 else fid) with
      | .error e => .error e
      | .ok out => .ok ({ conf with faculty_id := fid, address_id := idx } :: out)

/-- `ScientificCommunityDBManager._map_conferences(conferences, conf_num, fac_num)`;
`conf_num // fac_num` itself raises `ZeroDivisionError` when `fac_num == 0`. -/
def map_conferences (conferences : List Conference) (conf_num fac_num : Nat) :
    Except PyErr (List Conference) :=
  if fac_num = 0 then .error .zeroDivisionError
  else map_conferences_loop (conf_num / fac_num) conferences 1 1

/-- The budget bracket dispatch of `DateTimeMixin.funding_start_end_date`;
`funding in range(a, b)` means `a ≤ funding < b` and `funding in range(b)`
means `funding < b`. -/
def fundingWeeks (funding : Nat) : Nat :=
  if funding < 500000 then 24
  else if 500001 ≤ funding ∧ funding < 1000000 then 48
  else if 1000001 ≤ funding ∧ funding < 2000000 then 72
  else if 2000001 ≤ funding ∧ funding < 3000000 then 96
  else if 3000001 ≤ funding ∧ funding < 4000001 then 110
  else 140

/-- `DateTimeMixin.funding_start_end_date`: the faker draws a start date
(modelled by the oracle `startDate`, counted in days) and the end date is
`start + timedelta(weeks=w)`, i.e. `7 * w` days later. -/
def funding_start_end_date (startDate : Nat) (funding : Nat) : Nat × Nat :=
  (startDate, startDate + 7 * fundingWeeks funding)

/-- The junior-set size determined by a sampled title list: the split in
`_generate_and_insert_scientists_and_phds` collects the LECTURER, RESEARCHER
and LABORATORY_TEACHING_STAFF buckets. -/
def junior_count (ts : List Title) : Nat :=
  (ts.filter (· == Title.lecturer)).length + (ts.filter (· == Title.researcher)).length +
    (ts.filter (· == Title.labTeachingStaff)).length

/-- Total PHD count of a run: the per-faculty junior-set sizes summed. -/
def total_juniors (tss : List (List Title)) : Nat :=
  (tss.map junior_count).sum

/-- Concrete conference rows (ids enumerated from 1) used to instantiate the
stitching theorems on explicit inputs. -/
def sample_conferences (n : Nat) : List Conference :=
  (List.range n).map
    (fun i => { conference_id := i + 1, title := "c", faculty_id := 0, address_id := 0 })

/-! ### Identifier lemmas for the factories -/

theorem generate_addresses_ids (n : Nat) :
    ∀ (start : Nat) (fg : Nat → String × String × String × String × String),
      (generate_addresses n start fg).map (·.address_id) = List.range' start n := by
  induction n with
  | zero => intro start fg; rfl
  | succ m ih =>
      intro start fg
      simp [generate_addresses, List.range'_succ, ih]

theorem generate_scientists_ids (ts : List Title) :
    ∀ (start : Nat) (fg : Nat → String × String),
      (generate_scientists ts start fg).map (·.scientist_id) = List.range' start ts.length := by
  induction ts with
  | nil => intro start fg; rfl
  | cons t rest ih =>
      intro start fg
      simp [generate_scientists, List.range'_succ, ih]

theorem generate_scientists_length (ts : List Title) (start : Nat) (fg : Nat → String × String) :
    (generate_scientists ts start fg).length = ts.length := by
  have := congrArg List.length (generate_scientists_ids ts start fg)
  simpa using this

theorem generate_phds_ids (n : Nat) :
    ∀ (start : Nat) (fg : Nat → String × String × String),
      (generate_phds n start fg).map (·.phd_id) = List.range' start n := by
  induction n with
  | zero => intro start fg; rfl
  | succ m ih =>
      intro start fg
      simp [generate_phds, List.range'_succ, ih]

theorem generate_phds_length (n start : Nat) (fg : Nat → String × String × String) :
    (generate_phds n start fg).length = n := by
  have := congrArg List.length (generate_phds_ids n start fg)
  simpa using this

theorem faculties_from_spec (names : List String) :
    ∀ i : Nat,
      (faculties_from names i).map (·.name) = names ∧
      (faculties_from names i).map (·.faculty_id) = List.range' i names.length := by
  induction names with
  | nil => intro i; exact ⟨rfl, rfl⟩
  | cons nm rest ih =>
      intro i
      obtain ⟨h1, h2⟩ := ih (i + 1)
      constructor
      · simp [faculties_from, h1]
      · simp [faculties_from, List.range'_succ, h2]

/-! ### Claim C3 and C4: the budget-to-duration resolver -/

/-- C3: the resolver maps a budget of exactly 4000000 to the 110-week tier
(not the 140-week catch-all) and a budget of exactly 4000001 to the 140-week
tier, and the end date always equals the start date plus the selected tier's
duration (in days, a week being 7 days). -/
theorem funding_boundary_tiers (d f : Nat) :
    funding_start_end_date d 4000000 = (d, d + 7 * 110) ∧
    funding_start_end_date d 4000001 = (d, d + 7 * 140) ∧
    (funding_start_end_date d f).2 = (funding_start_end_date d f).1 + 7 * fundingWeeks f := by
  refine ⟨?_, ?_, rfl⟩
  · have h : fundingWeeks 4000000 = 110 := by decide
    simp [funding_start_end_date, h]
  · have h : fundingWeeks 4000001 = 140 := by decide
    simp [funding_start_end_date, h]

/-- C4: evaluation of the resolver at the four interior bracket boundaries.
The source's `range(500001, 1000000)`-style brackets exclude both 500000 and
1000000 (and likewise 2000000 and 3000000), so every one of these boundary
budgets falls through to the 140-week catch-all — contradicting the spec's
contiguous half-open-lower/closed-upper bracket policy, which the code's own
final bracket `range(3000001, 4000001)` (closed at 4000000) does follow. -/
theorem funding_interior_boundaries_catch_all :
    fundingWeeks 500000 = 140 ∧ fundingWeeks 1000000 = 140 ∧
    fundingWeeks 2000000 = 140 ∧ fundingWeeks 3000000 = 140 := by
  refine ⟨by decide, by decide, by decide, by decide⟩

/-! ### Claim C9: unique faculty generation -/

/-- C9: `generate_unique_faculties()` is structurally idempotent: both calls
return the same list, covering each catalog entry exactly once in declared
order with faculty ids enumerated from 1; the operation takes no weights and
no count argument, so the coverage cannot depend on them. -/
theorem unique_faculties_structure (names : List String) :
    generate_unique_faculties names = generate_unique_faculties names ∧
    (generate_unique_faculties names).length = names.length ∧
    (generate_unique_faculties names).map (·.name) = names ∧
    (generate_unique_faculties names).map (·.faculty_id) = List.range' 1 names.length := by
  obtain ⟨h1, h2⟩ := faculties_from_spec names 1
  refine ⟨rfl, ?_, h1, h2⟩
  have := congrArg List.length h1
  simpa using this

/-! ### Claim C8: the factories perform no argument validation -/

/-- C8 counterexample: at the explicit inputs `count = 0` and `start_id = 0`
the generators do not fail at all — `generate_addresses(0, 1)` yields the
empty sequence and `generate_addresses(2, 0)` yields a full two-element batch
with ids 0 and 1 — so no call raises an `InvalidArgumentError` (no such check
exists in `factories.py`). -/
theorem factory_validation_counterexample :
    generate_addresses 0 1 (fun _ => ("a", "b", "c", "d", "e")) = [] ∧
    (generate_addresses 2 0 (fun _ => ("a", "b", "c", "d", "e"))).map (·.address_id)
      = [0, 1] ∧
    generate_scientists [] 1 (fun _ => ("a", "b")) = [] := by
  refine ⟨rfl, rfl, rfl⟩

/-- C8 amended: the factories perform no argument validation: a call with
`count = 0` yields the empty sequence (Python's `range` is likewise empty for
negative counts), a call with `start_id = 0` yields a full batch whose
identifiers start at 0, and no `InvalidArgumentError` is ever raised. -/
theorem factories_no_argument_validation (start n : Nat)
    (fgA : Nat → String × String × String × String × String)
    (fgS : Nat → String × String) (ts : List Title) :
    generate_addresses 0 start fgA = [] ∧
    (generate_addresses n 0 fgA).map (·.address_id) = List.range' 0 n ∧
    generate_scientists [] start fgS = [] ∧
    (generate_scientists ts 0 fgS).map (·.scientist_id) = List.range' 0 ts.length := by
  exact ⟨rfl, generate_addresses_ids n 0 fgA, rfl, generate_scientists_ids ts 0 fgS⟩

/-! ### Membership and injectivity of a generated scientist batch -/

theorem mem_generate_scientists {sc : Scientist} (ts : List Title) :
    ∀ (start : Nat) (fg : Nat → String × String),
      sc ∈ generate_scientists ts start fg →
        start ≤ sc.scientist_id ∧ sc.scientist_id < start + ts.length := by
  induction ts with
  | nil => intro start fg h; cases h
  | cons t rest ih =>
      intro start fg h
      rcases List.mem_cons.mp h with h | h
      · subst h; simp
      · have := ih (start + 1) (fun i => fg (i + 1)) h
        simp only [List.length_cons]
        omega

theorem generate_scientists_id_inj {a b : Scientist} (ts : List Title) :
    ∀ (start : Nat) (fg : Nat → String × String),
      a ∈ generate_scientists ts start fg → b ∈ generate_scientists ts start fg →
      a.scientist_id = b.scientist_id → a = b := by
  induction ts with
  | nil => intro start fg ha; cases ha
  | cons t rest ih =>
      intro start fg ha hb hid
      rcases List.mem_cons.mp ha with ha | ha <;> rcases List.mem_cons.mp hb with hb | hb
      · rw [ha, hb]
      · exfalso
        have := (mem_generate_scientists rest (start + 1) (fun i => fg (i + 1)) hb).1
        have : b.scientist_id ≥ start + 1 := this
        rw [ha] at hid
        simp at hid
        omega
      · exfalso
        have := (mem_generate_scientists rest (start + 1) (fun i => fg (i + 1)) ha).1
        rw [hb] at hid
        simp at hid
        omega
      · exact ih (start + 1) (fun i => fg (i + 1)) ha hb hid

theorem mem_per_title {sc : Scientist} {l : List Scientist} {k : Title}
    (h : sc ∈ per_title l k) : sc ∈ l ∧ sc.title = k := by
  have := List.mem_filter.mp h
  exact ⟨this.1, by simpa using this.2⟩

theorem mem_prof_list {p : Scientist} {l : List Scientist} (h : p ∈ prof_list l) :
    p ∈ l ∧ (p.title = .professor ∨ p.title = .assistantProfessor ∨
      p.title = .associateProfessor) := by
  unfold prof_list at h
  rcases List.mem_append.mp h with h | h
  · rcases List.mem_append.mp h with h | h
    · exact ⟨(mem_per_title h).1, Or.inl (mem_per_title h).2⟩
    · exact ⟨(mem_per_title h).1, Or.inr (Or.inl (mem_per_title h).2)⟩
  · exact ⟨(mem_per_title h).1, Or.inr (Or.inr (mem_per_title h).2)⟩

theorem mem_student_list {s : Scientist} {l : List Scientist} (h : s ∈ student_list l) :
    s ∈ l ∧ (s.title = .lecturer ∨ s.title = .researcher ∨
      s.title = .labTeachingStaff) := by
  unfold student_list at h
  rcases List.mem_append.mp h with h | h
  · rcases List.mem_append.mp h with h | h
    · exact ⟨(mem_per_title h).1, Or.inl (mem_per_title h).2⟩
    · exact ⟨(mem_per_title h).1, Or.inr (Or.inl (mem_per_title h).2)⟩
  · exact ⟨(mem_per_title h).1, Or.inr (Or.inr (mem_per_title h).2)⟩

/-- A junior-rank and a senior-rank scientist of the same generated batch never
share an id: ids inside a batch are injective and the two rank sets are
disjoint title sets. -/
theorem junior_senior_id_ne (ts : List Title) (start : Nat) (fg : Nat → String × String)
    {s p : Scientist} (hs : s ∈ student_list (generate_scientists ts start fg))
    (hp : p ∈ prof_list (generate_scientists ts start fg)) :
    s.scientist_id ≠ p.scientist_id := by
  intro hid
  obtain ⟨hsm, hst⟩ := mem_student_list hs
  obtain ⟨hpm, hpt⟩ := mem_prof_list hp
  have : s = p := generate_scientists_id_inj ts start fg hsm hpm hid
  subst this
  rcases hst with h | h | h <;> rcases hpt with h' | h' | h' <;> rw [h] at h' <;> cases h'

/-! ### The PHD assignment loop -/

/-- The supervisor actually drawn by `random.choices` on a non-empty senior
list. -/
def sup_of (q : Scientist) (qs : List Scientist) (r : Nat) : Scientist :=
  (q :: qs).get ⟨r % (q :: qs).length, Nat.mod_lt _ (Nat.succ_pos _)⟩

theorem choose_supervisor_cons (q : Scientist) (qs : List Scientist) (r : Nat) :
    choose_supervisor (q :: qs) r = .ok (sup_of q qs r) := rfl

theorem sup_of_mem (q : Scientist) (qs : List Scientist) (r : Nat) :
    sup_of q qs r ∈ q :: qs := List.get_mem _ _ _

/-- Whenever the assignment loop terminates normally, the produced PHDs carry
exactly the generated PHD ids, in generation order. -/
theorem assign_phds_ok_ids (profs : List Scientist) (pick : Nat → Nat) (phds : List PHD) :
    ∀ (sts : List Scientist) (j : Nat) (out : List PHD),
      assign_phds profs pick phds sts j = .ok out →
      out.map (·.phd_id) = (phds.map (·.phd_id)).take sts.length := by
  induction phds with
  | nil =>
      intro sts j out h
      simp only [assign_phds] at h
      injection h with h
      subst h
      simp
  | cons phd phds ihp =>
      intro sts j out h
      cases sts with
      | nil =>
          simp only [assign_phds] at h
          injection h with h
          subst h
          simp
      | cons st sts =>
          simp only [assign_phds] at h
          split at h
          · exact absurd h (by simp)
          · split at h
            · exact absurd h (by simp)
            · rename_i rest hr
              injection h with h
              subst h
              simp only [List.map_cons, List.length_cons, List.take_succ_cons]
              rw [ihp sts (j + 1) rest hr]

/-- On a non-empty senior list the assignment loop always terminates normally,
produces one PHD per junior (walking both lists positionally), and each output
record is the generated record with `scientist_id` set to the matching junior
and `supervisor_id` set to a drawn senior. -/
theorem assign_phds_spec (q : Scientist) (qs : List Scientist) (pick : Nat → Nat)
    (phds : List PHD) :
    ∀ (sts : List Scientist) (j : Nat),
      ∃ out, assign_phds (q :: qs) pick phds sts j = .ok out ∧
        out.length = min phds.length sts.length ∧
        ∀ (i : Nat) (o : PHD), out[i]? = some o →
          ∃ (phd : PHD) (st p : Scientist),
            phds[i]? = some phd ∧ sts[i]? = some st ∧ p ∈ q :: qs ∧
            o = { phd with scientist_id := some st.scientist_id, supervisor_id := some p.scientist_id } := by
  induction phds with
  | nil =>
      intro sts j
      refine ⟨[], rfl, by simp, ?_⟩
      intro i o h
      simp at h
  | cons phd phds ihp =>
      intro sts j
      cases sts with
      | nil =>
          refine ⟨[], rfl, by simp, ?_⟩
          intro i o h
          simp at h
      | cons st sts =>
          obtain ⟨out, heq, hlen, hspec⟩ := ihp sts (j + 1)
          refine ⟨{ phd with
                      scientist_id := some st.scientist_id
                      supervisor_id := some (sup_of q qs (pick j)).scientist_id } :: out,
                  ?_, ?_, ?_⟩
          · simp only [assign_phds, choose_supervisor_cons]
            rw [heq]
          · simp [hlen, Nat.succ_min_succ]
          · intro i o h
            cases i with
            | zero =>
                simp at h
                exact ⟨phd, st, sup_of q qs (pick j), by simp, by simp,
                  sup_of_mem q qs (pick j), h.symm⟩
            | succ i =>
                simp only [List.getElem?_cons_succ] at h ⊢
                exact hspec i o h

/-- With an empty senior list and non-empty junior/PHD batches the loop stops
at its first iteration with the `IndexError` of `random.choices([])`. -/
theorem assign_phds_empty_profs (pick : Nat → Nat) (phd : PHD) (phds : List PHD)
    (st : Scientist) (sts : List Scientist) (j : Nat) :
    assign_phds [] pick (phd :: phds) (st :: sts) j = .error .indexError := rfl

/-! ### Claim C2: PHD candidate/supervisor invariants of one faculty batch -/

/-- C2: in a per-faculty batch whose senior set is non-empty, the pass
succeeds, produces exactly one PHD per junior scientist, pairs PHDs and
juniors positionally (`scientist_id`), draws every `supervisor_id` from the
senior set of the same batch, and the candidate and supervisor ids always
differ. -/
theorem phd_pass_junior_senior (ts : List Title) (sc_start phd_start : Nat)
    (scFg : Nat → String × String) (phdFg : Nat → String × String × String)
    (pick : Nat → Nat)
    (hsen : prof_list (generate_scientists ts sc_start scFg) ≠ []) :
    ∃ fb, stitch_faculty ts sc_start phd_start scFg phdFg pick = .ok fb ∧
      fb.scientists = plain_scientists (generate_scientists ts sc_start scFg) ∧
      fb.phds.length = (student_list (generate_scientists ts sc_start scFg)).length ∧
      ∀ (i : Nat) (o : PHD), fb.phds[i]? = some o →
        ∃ (st p : Scientist),
          (student_list (generate_scientists ts sc_start scFg))[i]? = some st ∧
          p ∈ prof_list (generate_scientists ts sc_start scFg) ∧
          o.scientist_id = some st.scientist_id ∧
          o.supervisor_id = some p.scientist_id ∧
          o.scientist_id ≠ o.supervisor_id := by
  obtain ⟨q, qs, hq⟩ := List.exists_cons_of_ne_nil hsen
  obtain ⟨out, heq, hlen, hspec⟩ := assign_phds_spec q qs pick
    (generate_phds (student_list (generate_scientists ts sc_start scFg)).length phd_start phdFg)
    (student_list (generate_scientists ts sc_start scFg)) 0
  refine ⟨⟨plain_scientists (generate_scientists ts sc_start scFg), out⟩, ?_, rfl, ?_, ?_⟩
  · simp only [stitch_faculty]
    rw [hq, heq]
  · rw [generate_phds_length] at hlen
    simpa using hlen
  · intro i o h
    obtain ⟨phd, st, p, hphd, hst, hp, ho⟩ := hspec i o h
    subst ho
    refine ⟨st, p, hst, hq ▸ hp, rfl, rfl, ?_⟩
    have hstm : st ∈ student_list (generate_scientists ts sc_start scFg) :=
      List.getElem?_mem hst
    have hpm : p ∈ prof_list (generate_scientists ts sc_start scFg) := hq ▸ hp
    have := junior_senior_id_ne ts sc_start scFg hstm hpm
    simpa using this

/-- C2 witness: a concrete two-scientist batch (one professor, one lecturer)
satisfying the non-empty-senior hypothesis, with the theorem's conclusion
instantiated at it. -/
theorem phd_pass_junior_senior_witness :
    prof_list (generate_scientists [Title.professor, Title.lecturer] 1 (fun _ => ("a", "b"))) ≠ [] ∧
    (∃ fb, stitch_faculty [Title.professor, Title.lecturer] 1 1 (fun _ => ("a", "b"))
        (fun _ => ("d", "x", "t")) (fun _ => 0) = .ok fb ∧
      fb.scientists = plain_scientists
        (generate_scientists [Title.professor, Title.lecturer] 1 (fun _ => ("a", "b"))) ∧
      fb.phds.length = (student_list
        (generate_scientists [Title.professor, Title.lecturer] 1 (fun _ => ("a", "b")))).length ∧
      ∀ (i : Nat) (o : PHD), fb.phds[i]? = some o →
        ∃ (st p : Scientist),
          (student_list (generate_scientists [Title.professor, Title.lecturer] 1
            (fun _ => ("a", "b"))))[i]? = some st ∧
          p ∈ prof_list (generate_scientists [Title.professor, Title.lecturer] 1
            (fun _ => ("a", "b"))) ∧
          o.scientist_id = some st.scientist_id ∧
          o.supervisor_id = some p.scientist_id ∧
          o.scientist_id ≠ o.supervisor_id) :=
  ⟨by decide,
   phd_pass_junior_senior [Title.professor, Title.lecturer] 1 1 (fun _ => ("a", "b"))
     (fun _ => ("d", "x", "t")) (fun _ => 0) (by decide)⟩

/-! ### Claim C7: the empty-senior failure mode -/

/-- C7 counterexample: at the explicit input of one lecturer-only batch the
pass fails with Python's `IndexError` (raised by `random.choices` on the empty
`prof_list`), not with the `NoSupervisorAvailableError` the claim names. -/
theorem empty_senior_counterexample :
    stitch_faculty [Title.lecturer] 1 1 (fun _ => ("a", "b")) (fun _ => ("d", "x", "t"))
      (fun _ => 0) = .error .indexError ∧
    PyErr.indexError ≠ PyErr.noSupervisorAvailableError :=
  ⟨rfl, by decide⟩

/-- C7 amended: a per-faculty batch with an empty senior set and a non-empty
junior set fails on its first PHD with the `IndexError` of
`random.choices([])` (so no supervisor is ever assigned and no PHD batch is
produced), but the error is Python's `IndexError`, not a dedicated
`NoSupervisorAvailableError`. -/
theorem empty_senior_fails_index_error (ts : List Title) (sc_start phd_start : Nat)
    (scFg : Nat → String × String) (phdFg : Nat → String × String × String)
    (pick : Nat → Nat)
    (hsen : prof_list (generate_scientists ts sc_start scFg) = [])
    (hjun : student_list (generate_scientists ts sc_start scFg) ≠ []) :
    stitch_faculty ts sc_start phd_start scFg phdFg pick = .error .indexError := by
  obtain ⟨s, ss, hs⟩ := List.exists_cons_of_ne_nil hjun
  simp only [stitch_faculty]
  rw [hsen, hs]
  simp [generate_phds, assign_phds, choose_supervisor]

/-- C7 amended witness: a concrete researcher-only batch discharging both
hypotheses of the amended theorem. -/
theorem empty_senior_fails_index_error_witness :
    prof_list (generate_scientists [Title.researcher] 2 (fun _ => ("a", "b"))) = [] ∧
    student_list (generate_scientists [Title.researcher] 2 (fun _ => ("a", "b"))) ≠ [] ∧
    stitch_faculty [Title.researcher] 2 3 (fun _ => ("a", "b")) (fun _ => ("d", "x", "t"))
      (fun _ => 0) = .error .indexError :=
  ⟨rfl, by decide,
   empty_senior_fails_index_error [Title.researcher] 2 3 (fun _ => ("a", "b"))
     (fun _ => ("d", "x", "t")) (fun _ => 0) rfl (by decide)⟩

/-! ### The grouping dict is a partition of the batch -/

theorem title_mem_catalog (t : Title) : t ∈ SCIENTIST_TITLES := by
  cases t <;> simp [SCIENTIST_TITLES]

theorem per_title_filter_ne (k k' : Title) (hkk : k' ≠ k) (l : List Scientist) :
    per_title (l.filter (fun sc => !(sc.title == k))) k' = per_title l k' := by
  unfold per_title
  rw [List.filter_filter]
  apply List.filter_congr
  intro sc _
  by_cases h : sc.title = k'
  · have : ¬ sc.title = k := fun hc => hkk (h ▸ hc ▸ rfl)
    simp [h, this, hkk]
  · simp [h]

/-- Grouping a scientist list by a duplicate-free list of keys that covers all
occurring titles yields buckets whose concatenation is a permutation of the
original list. -/
theorem join_per_title_perm :
    ∀ (keys : List Title) (l : List Scientist), keys.Nodup →
      (∀ sc ∈ l, sc.title ∈ keys) → ((keys.map (per_title l)).flatten).Perm l
  | [], l, _, hcov => by
      cases l with
      | nil => simp
      | cons s t => exact absurd (hcov s (List.mem_cons_self s t)) (by simp)
  | k :: ks, l, hnd, hcov => by
      have hk : k ∉ ks := (List.nodup_cons.mp hnd).1
      have hnd' : ks.Nodup := (List.nodup_cons.mp hnd).2
      have hmap : ks.map (per_title l) =
          ks.map (per_title (l.filter (fun sc => !(sc.title == k)))) := by
        apply List.map_congr_left
        intro k' hk'
        exact (per_title_filter_ne k k' (fun hc => hk (hc ▸ hk')) l).symm
      have hcov' : ∀ sc ∈ l.filter (fun sc => !(sc.title == k)), sc.title ∈ ks := by
        intro sc hsc
        obtain ⟨hm, hne⟩ := List.mem_filter.mp hsc
        rcases List.mem_cons.mp (hcov sc hm) with h | h
        · exfalso; simp [h] at hne
        · exact h
      have ih := join_per_title_perm ks (l.filter (fun sc => !(sc.title == k))) hnd' hcov'
      have step1 : ((k :: ks).map (per_title l)).flatten
          = per_title l k ++ (ks.map (per_title (l.filter (fun sc => !(sc.title == k))))).flatten := by
        simp only [List.map_cons, List.flatten_cons]
        rw [hmap]
      rw [step1]
      refine (ih.append_left (per_title l k)).trans ?_
      simpa [per_title] using List.filter_append_perm (fun sc => sc.title == k) l

/-- The flattened dict values (`plain_scientists`) are a permutation of the
generated batch: each scientist lands in exactly one bucket. -/
theorem plain_scientists_perm (l : List Scientist) : (plain_scientists l).Perm l := by
  unfold plain_scientists
  exact join_per_title_perm SCIENTIST_TITLES l (by decide) (fun sc _ => title_mem_catalog sc.title)

theorem per_title_length (ts : List Title) :
    ∀ (start : Nat) (fg : Nat → String × String) (k : Title),
      (per_title (generate_scientists ts start fg) k).length = (ts.filter (· == k)).length := by
  induction ts with
  | nil => intro start fg k; rfl
  | cons t rest ih =>
      intro start fg k
      have h2 := ih (start + 1) (fun i => fg (i + 1)) k
      simp only [per_title] at h2
      by_cases h : t = k
      · simp [generate_scientists, per_title, List.filter_cons, h, h2]
      · simp [generate_scientists, per_title, List.filter_cons, h, h2]

theorem student_list_length (ts : List Title) (start : Nat) (fg : Nat → String × String) :
    (student_list (generate_scientists ts start fg)).length = junior_count ts := by
  unfold student_list junior_count
  simp [List.length_append, per_title_length]
  omega

theorem generate_scientists_pairwise (ts : List Title) :
    ∀ (start : Nat) (fg : Nat → String × String),
      (generate_scientists ts start fg).Pairwise
        (fun a b => a.scientist_id < b.scientist_id) := by
  induction ts with
  | nil => intro start fg; exact List.Pairwise.nil
  | cons t rest ih =>
      intro start fg
      simp only [generate_scientists]
      refine List.Pairwise.cons ?_ (ih (start + 1) (fun i => fg (i + 1)))
      intro b hb
      have h1 := (mem_generate_scientists rest (start + 1) (fun i => fg (i + 1)) hb).1
      exact Nat.lt_of_succ_le h1

/-! ### Claim C10: `generate_scientists_per_title` partitions the batch -/

/-- C10: for every requested count (the sampled title list `ts`) and start id,
the grouping operation returns a mapping keyed by exactly the fixed title
catalog in declared order; every generated scientist lies in exactly the
bucket of its own title (so buckets are pairwise disjoint), the bucket sizes
sum to the batch size, and inside each bucket the scientists appear in
generation order (strictly increasing ids). -/
theorem per_title_grouping (ts : List Title) (start : Nat) (fg : Nat → String × String) :
    (generate_scientists_per_title ts start fg).map Prod.fst = SCIENTIST_TITLES ∧
    (∀ e ∈ generate_scientists_per_title ts start fg, ∀ sc ∈ e.2,
        sc.title = e.1 ∧ sc ∈ generate_scientists ts start fg) ∧
    (∀ sc ∈ generate_scientists ts start fg,
        ∀ e ∈ generate_scientists_per_title ts start fg, (sc ∈ e.2 ↔ e.1 = sc.title)) ∧
    ((generate_scientists_per_title ts start fg).map (fun e => e.2.length)).sum = ts.length ∧
    (∀ e ∈ generate_scientists_per_title ts start fg,
        e.2.Pairwise (fun a b => a.scientist_id < b.scientist_id)) := by
  refine ⟨rfl, ?_, ?_, ?_, ?_⟩
  · intro e he sc hsc
    obtain ⟨k, _, rfl⟩ := List.mem_map.mp he
    exact ⟨(mem_per_title hsc).2, (mem_per_title hsc).1⟩
  · intro sc hscm e he
    obtain ⟨k, _, rfl⟩ := List.mem_map.mp he
    constructor
    · intro hsc
      exact ((mem_per_title hsc).2).symm
    · intro h
      exact List.mem_filter.mpr ⟨hscm, by simp [h.symm]⟩
  · have h1 : (generate_scientists_per_title ts start fg).map (fun e => e.2.length)
        = (SCIENTIST_TITLES.map (per_title (generate_scientists ts start fg))).map
            List.length := by
      simp [generate_scientists_per_title, List.map_map, Function.comp]
    rw [h1, ← List.length_flatten]
    have h2 := (plain_scientists_perm (generate_scientists ts start fg)).length_eq
    simp only [plain_scientists] at h2
    rw [h2, generate_scientists_length]
  · intro e he
    obtain ⟨k, _, rfl⟩ := List.mem_map.mp he
    exact List.Pairwise.sublist (List.filter_sublist _) (generate_scientists_pairwise ts start fg)

/-! ### The conference/faculty mapping loop -/

/-- Closed form of `_map_conferences`' loop for a positive block size `q`:
starting at enumeration index `j + 1` with running faculty id `fid`, the
element at offset `p` receives address id `j + 1 + p` and faculty id
`fid + ((j + p) / q - j / q)`. -/
theorem map_conferences_loop_ok (q : Nat) (hq : 0 < q) :
    ∀ (confs : List Conference) (j fid : Nat),
      ∃ out, map_conferences_loop q confs (j + 1) fid = .ok out ∧
        out.map (·.address_id) = List.range' (j + 1) confs.length ∧
        out.map (·.faculty_id)
          = (List.range confs.length).map (fun p => fid + ((j + p) / q - j / q)) := by
  intro confs
  induction confs with
  | nil => intro j fid; exact ⟨[], rfl, rfl, rfl⟩
  | cons conf rest ih =>
      intro j fid
      obtain ⟨out, heq, haddr, hfac⟩ := ih (j + 1) (if (j + 1) % q = 0 then fid + 1 else fid)
      have key : ∀ p : Nat,
          fid + ((j + (p + 1)) / q - j / q)
            = (if (j + 1) % q = 0 then fid + 1 else fid) + ((j + 1 + p) / q - (j + 1) / q) := by
        intro p
        have hjp : j + (p + 1) = j + 1 + p := by omega
        rw [hjp]
        have hca : (j + 1) / q ≤ (j + 1 + p) / q := Nat.div_le_div_right (by omega)
        by_cases hd : (j + 1) % q = 0
        · have hsd : (j + 1) / q = j / q + 1 :=
            Nat.succ_div_of_dvd (Nat.dvd_of_mod_eq_zero hd)
          rw [if_pos hd]
          omega
        · have hsd : (j + 1) / q = j / q :=
            Nat.succ_div_of_not_dvd (fun hc => hd (Nat.mod_eq_zero_of_dvd hc))
          rw [if_neg hd]
          omega
      refine ⟨{ conf with faculty_id := fid, address_id := j + 1 } :: out, ?_, ?_, ?_⟩
      · simp only [map_conferences_loop, if_neg (Nat.pos_iff_ne_zero.mp hq)]
        rw [heq]
      · simp [haddr, List.range'_succ]
      · simp only [List.map_cons, List.length_cons, List.range_succ_eq_map, List.map_map]
        have h0 : fid + ((j + 0) / q - j / q) = fid := by
          simp
        refine ?_
        rw [hfac]
        refine List.cons_eq_cons.mpr ⟨by simp, ?_⟩
        apply List.map_congr_left
        intro p _
        simp only [Function.comp_apply]
        exact (key p).symm

/-! ### Claim C1: the conference/faculty block mapping -/

/-- C1: when the conference list length `conf_num` is an exact multiple of
`fac_num ≥ 1`, `_map_conferences` succeeds, assigns address ids `1..conf_num`
in order (a bijection onto the parallel address batch), assigns the conference
at 0-based position `p` the faculty id `p / (conf_num / fac_num) + 1` — i.e.
contiguous equal-size blocks in generation order, block `i` (1-based)
receiving faculty id `i` — and every assigned faculty id lies in
`[1, fac_num]`. -/
theorem conference_mapping_blocks (confs : List Conference) (conf_num fac_num : Nat)
    (hf : 1 ≤ fac_num) (hlen : confs.length = conf_num) (hdvd : fac_num ∣ conf_num) :
    ∃ out, map_conferences confs conf_num fac_num = .ok out ∧
      out.map (·.address_id) = List.range' 1 conf_num ∧
      out.map (·.faculty_id)
        = (List.range conf_num).map (fun p => p / (conf_num / fac_num) + 1) ∧
      ∀ c ∈ out, 1 ≤ c.faculty_id ∧ c.faculty_id ≤ fac_num := by
  have hfz : fac_num ≠ 0 := by omega
  by_cases h0 : conf_num = 0
  · subst h0
    have hnil : confs = [] := List.length_eq_zero.mp hlen
    subst hnil
    exact ⟨[], by simp [map_conferences, hfz, map_conferences_loop], rfl, rfl, by simp⟩
  · obtain ⟨k, hk⟩ := hdvd
    have hqk : conf_num / fac_num = k := by
      rw [hk]; exact Nat.mul_div_cancel_left k (by omega)
    have hq : 0 < conf_num / fac_num := by
      rw [hqk]
      rcases Nat.eq_zero_or_pos k with h | h
      · exfalso; rw [h, Nat.mul_zero] at hk; exact h0 hk
      · exact h
    obtain ⟨out, heq, haddr, hfac⟩ := map_conferences_loop_ok (conf_num / fac_num) hq confs 0 1
    rw [hlen] at haddr hfac
    simp only [Nat.zero_add, Nat.zero_div, Nat.sub_zero] at haddr hfac
    refine ⟨out, ?_, haddr, ?_, ?_⟩
    · simp only [map_conferences, if_neg hfz]
      simpa using heq
    · rw [hfac]
      apply List.map_congr_left
      intro p _
      omega
    · intro c hc
      have hmem : c.faculty_id ∈ out.map (·.faculty_id) := List.mem_map_of_mem _ hc
      rw [hfac] at hmem
      obtain ⟨p, hp, hpe⟩ := List.mem_map.mp hmem
      have hplt : p < conf_num := List.mem_range.mp hp
      have hdivlt : p / (conf_num / fac_num) < fac_num := by
        refine (Nat.div_lt_iff_lt_mul hq).mpr ?_
        rw [hqk]
        omega
      have hpe2 : 1 + p / (conf_num / fac_num) = c.faculty_id := hpe
      generalize hgen : p / (conf_num / fac_num) = w at hdivlt hpe2
      omega

/-- C1 witness: four conferences over two faculties (an exact multiple),
discharging every hypothesis at a concrete input. -/
theorem conference_mapping_blocks_witness :
    1 ≤ 2 ∧ (sample_conferences 4).length = 4 ∧ 2 ∣ 4 ∧
    (∃ out, map_conferences (sample_conferences 4) 4 2 = .ok out ∧
      out.map (·.address_id) = List.range' 1 4 ∧
      out.map (·.faculty_id) = (List.range 4).map (fun p => p / (4 / 2) + 1) ∧
      ∀ c ∈ out, 1 ≤ c.faculty_id ∧ c.faculty_id ≤ 2) :=
  ⟨by decide, by decide, by decide,
   conference_mapping_blocks (sample_conferences 4) 4 2 (by decide) (by decide) (by decide)⟩

/-! ### Claim C6: uneven conference/faculty distribution -/

/-- C6 counterexample: with 7 conferences over 2 faculties (not an exact
multiple) the stitching pass does NOT fail — no `UnevenDistributionError`
exists in the code — and it does assign foreign keys: the computed faculty ids
are `[1, 1, 1, 2, 2, 2, 3]`, the last one outside `[1, 2]`. -/
theorem uneven_distribution_counterexample :
    (map_conferences (sample_conferences 7) 7 2).map (fun l => l.map (·.faculty_id))
      = Except.ok [1, 1, 1, 2, 2, 2, 3] := by
  rfl

/-- C6 amended: `_map_conferences` performs no divisibility check and never
raises an `UnevenDistributionError`.  When `conference_count` is not an exact
multiple of `faculty_count`, it either completes normally while assigning some
conference a faculty id greater than `faculty_count` (when
`faculty_count ≤ conference_count`), or crashes with Python's
`ZeroDivisionError` (when `conference_count < faculty_count`, making
`conf_per_fac` zero). -/
theorem uneven_mapping_behavior (confs : List Conference) (conf_num fac_num : Nat)
    (hf : 1 ≤ fac_num) (hlen : confs.length = conf_num) (hnd : ¬ fac_num ∣ conf_num) :
    (fac_num ≤ conf_num →
      ∃ out, map_conferences confs conf_num fac_num = .ok out ∧
        ∃ c ∈ out, fac_num < c.faculty_id) ∧
    (conf_num < fac_num →
      map_conferences confs conf_num fac_num = .error .zeroDivisionError) := by
  have hfz : fac_num ≠ 0 := by omega
  have hcz : conf_num ≠ 0 := fun h => hnd (h ▸ Dvd.intro 0 rfl)
  constructor
  · intro hle
    have hq : 0 < conf_num / fac_num := by
      have : 1 * fac_num ≤ conf_num := by omega
      exact (Nat.le_div_iff_mul_le (by omega)).mpr this
    obtain ⟨out, heq, haddr, hfac⟩ := map_conferences_loop_ok (conf_num / fac_num) hq confs 0 1
    rw [hlen] at hfac
    simp only [Nat.zero_add, Nat.zero_div, Nat.sub_zero] at hfac
    refine ⟨out, ?_, ?_⟩
    · simp only [map_conferences, if_neg hfz]
      simpa using heq
    · have hmul : fac_num * (conf_num / fac_num) ≤ conf_num := by
        have := Nat.div_mul_le_self conf_num fac_num
        calc fac_num * (conf_num / fac_num) = conf_num / fac_num * fac_num := Nat.mul_comm _ _
          _ ≤ conf_num := this
      have hne : fac_num * (conf_num / fac_num) ≠ conf_num :=
        fun h => hnd ⟨conf_num / fac_num, h.symm⟩
      have hbound : fac_num ≤ (conf_num - 1) / (conf_num / fac_num) := by
        refine (Nat.le_div_iff_mul_le hq).mpr ?_
        omega
      have hpmem : conf_num - 1 ∈ List.range conf_num := List.mem_range.mpr (by omega)
      have hval : (1 + (conf_num - 1) / (conf_num / fac_num))
          ∈ out.map (·.faculty_id) := by
        rw [hfac]
        exact List.mem_map_of_mem _ hpmem
      obtain ⟨c, hcm, hce⟩ := List.mem_map.mp hval
      refine ⟨c, hcm, ?_⟩
      rw [hce]
      generalize hgen : (conf_num - 1) / (conf_num / fac_num) = w at hbound
      omega
  · intro hlt
    have hq0 : conf_num / fac_num = 0 := Nat.div_eq_of_lt hlt
    have hne : confs ≠ [] := by
      intro h
      rw [h] at hlen
      exact hcz (by simpa using hlen.symm)
    obtain ⟨c0, rest, hcr⟩ := List.exists_cons_of_ne_nil hne
    rw [hcr]
    simp [map_conferences, hfz, hq0, map_conferences_loop]

/-- C6 amended witness: seven conferences over two faculties discharge the
hypotheses; the uneven batch completes with an out-of-range faculty id. -/
theorem uneven_mapping_behavior_witness :
    1 ≤ 2 ∧ (sample_conferences 7).length = 7 ∧ ¬ (2 ∣ 7) ∧
    ((2 ≤ 7 →
      ∃ out, map_conferences (sample_conferences 7) 7 2 = .ok out ∧
        ∃ c ∈ out, 2 < c.faculty_id) ∧
     (7 < 2 →
      map_conferences (sample_conferences 7) 7 2 = .error .zeroDivisionError)) :=
  ⟨by decide, by decide, by decide,
   uneven_mapping_behavior (sample_conferences 7) 7 2 (by decide) (by decide) (by decide)⟩

/-! ### Claim C5: dense, non-overlapping identifier ranges -/

theorem stitch_faculty_ok_inv (ts : List Title) (sc_start phd_start : Nat)
    (scFg : Nat → String × String) (phdFg : Nat → String × String × String)
    (pick : Nat → Nat) (fb : FacultyBatch)
    (h : stitch_faculty ts sc_start phd_start scFg phdFg pick = .ok fb) :
    fb.scientists = plain_scientists (generate_scientists ts sc_start scFg) ∧
    fb.phds.map (·.phd_id)
      = List.range' phd_start (student_list (generate_scientists ts sc_start scFg)).length := by
  simp only [stitch_faculty] at h
  split at h
  · exact absurd h (by simp)
  · rename_i out hassign
    injection h with h
    subst h
    refine ⟨rfl, ?_⟩
    have hids := assign_phds_ok_ids _ pick _ _ 0 out hassign
    rw [generate_phds_ids] at hids
    have htake : (List.range' phd_start
        (student_list (generate_scientists ts sc_start scFg)).length).take
          (student_list (generate_scientists ts sc_start scFg)).length
        = List.range' phd_start (student_list (generate_scientists ts sc_start scFg)).length :=
      List.take_of_length_le (by simp)
    rw [htake] at hids
    exact hids

/-- Across the whole per-faculty loop, the scientist ids of the stored batches
are a permutation of the dense range starting at the initial scientist id (one
block of `sc_per_fac` per faculty), and the PHD ids are exactly the dense
range starting at the initial PHD id (one block per faculty, sized by its
junior set). -/
theorem stitch_all_ids (sc_per_fac : Nat) :
    ∀ (tss : List (List Title)) (scFg : Nat → Nat → String × String)
      (phdFg : Nat → Nat → String × String × String) (pick : Nat → Nat → Nat)
      (sc_start phd_start : Nat) (bs : List FacultyBatch),
      (∀ ts ∈ tss, ts.length = sc_per_fac) →
      stitch_all sc_per_fac scFg phdFg pick tss sc_start phd_start = .ok bs →
      ((bs.map (fun b => b.scientists.map (·.scientist_id))).flatten).Perm
          (List.range' sc_start (tss.length * sc_per_fac)) ∧
      (bs.map (fun b => b.phds.map (·.phd_id))).flatten
          = List.range' phd_start (total_juniors tss) := by
  intro tss
  induction tss with
  | nil =>
      intro scFg phdFg pick sc_start phd_start bs hlen hok
      simp only [stitch_all] at hok
      injection hok with hok
      subst hok
      simp [total_juniors]
  | cons ts rest ih =>
      intro scFg phdFg pick sc_start phd_start bs hlen hok
      simp only [stitch_all] at hok
      split at hok
      · exact absurd hok (by simp)
      · rename_i fb hfb
        split at hok
        · exact absurd hok (by simp)
        · rename_i fbs hfbs
          injection hok with hok
          subst hok
          obtain ⟨hsc, hphd⟩ :=
            stitch_faculty_ok_inv ts sc_start phd_start (scFg 0) (phdFg 0) (pick 0) fb hfb
          obtain ⟨ihs, ihp⟩ := ih (fun i => scFg (i + 1)) (fun i => phdFg (i + 1))
            (fun i => pick (i + 1)) (sc_start + sc_per_fac)
            (phd_start + (student_list (generate_scientists ts sc_start (scFg 0))).length)
            fbs (fun t ht => hlen t (List.mem_cons_of_mem _ ht)) hfbs
          have hl : ts.length = sc_per_fac := hlen ts (List.mem_cons_self _ _)
          constructor
          · simp only [List.map_cons, List.flatten_cons]
            have hperm :=
              (plain_scientists_perm (generate_scientists ts sc_start (scFg 0))).map
                (·.scientist_id)
            rw [generate_scientists_ids, hl] at hperm
            have hplain : (fb.scientists.map (·.scientist_id)).Perm
                (List.range' sc_start sc_per_fac) := by
              rw [hsc]; exact hperm
            have hlen2 : (ts :: rest).length * sc_per_fac
                = rest.length * sc_per_fac + sc_per_fac := by
              simp [List.length_cons, Nat.add_mul]
            rw [hlen2]
            have happend := hplain.append ihs
            rwa [List.range'_append_1] at happend
          · simp only [List.map_cons, List.flatten_cons]
            rw [hphd, ihp, List.range'_append_1]
            congr 1
            rw [student_list_length]
            simp [total_juniors, Nat.add_comm]

/-- C5: dense identifier invariants.  Every address batch with `count ≥ 1` and
`start_id ≥ 1` carries exactly the ids `start_id .. start_id + count - 1` in
order (unique, contiguous, no gaps); and across the per-faculty loop started
at scientist id 1 and PHD id 1, the scientist start offset advances by the
batch size and the PHD offset by the junior-set size, so the run's scientist
ids fill `1 .. faculty_count * sc_per_fac` (as a permutation: the stored order
is the per-title grouping) and the PHD ids are exactly
`1 .. total_junior_count`, globally dense and non-overlapping. -/
theorem generated_ids_dense (n start : Nat)
    (fgA : Nat → String × String × String × String × String)
    (sc_per_fac : Nat) (tss : List (List Title))
    (scFg : Nat → Nat → String × String)
    (phdFg : Nat → Nat → String × String × String) (pick : Nat → Nat → Nat)
    (bs : List FacultyBatch)
    (hn : 1 ≤ n) (hstart : 1 ≤ start)
    (hlen : ∀ ts ∈ tss, ts.length = sc_per_fac)
    (hok : stitch_all sc_per_fac scFg phdFg pick tss 1 1 = .ok bs) :
    (generate_addresses n start fgA).map (·.address_id) = List.range' start n ∧
    ((bs.map (fun b => b.scientists.map (·.scientist_id))).flatten).Perm
        (List.range' 1 (tss.length * sc_per_fac)) ∧
    (bs.map (fun b => b.phds.map (·.phd_id))).flatten
        = List.range' 1 (total_juniors tss) := by
  obtain ⟨h1, h2⟩ := stitch_all_ids sc_per_fac tss scFg phdFg pick 1 1 bs hlen hok
  exact ⟨generate_addresses_ids n start fgA, h1, h2⟩

/-- Concrete two-faculty title sample used to instantiate the dense-identifier
theorem. -/
def c5_titles : List (List Title) :=
  [[.professor, .lecturer], [.associateProfessor, .researcher]]

/-- The batches the stitching loop produces on `c5_titles` with constant
oracles. -/
def c5_batches : List FacultyBatch :=
  [⟨[⟨1, .professor, "a", "b"⟩, ⟨2, .lecturer, "a", "b"⟩],
    [⟨1, "d", "x", "t", some 2, some 1⟩]⟩,
   ⟨[⟨3, .associateProfessor, "a", "b"⟩, ⟨4, .researcher, "a", "b"⟩],
    [⟨2, "d", "x", "t", some 4, some 3⟩]⟩]

/-- C5 witness: a three-address batch starting at id 5 and a concrete
two-faculty run discharging every hypothesis of the dense-identifier
theorem. -/
theorem generated_ids_dense_witness :
    1 ≤ 3 ∧ 1 ≤ 5 ∧ (∀ ts ∈ c5_titles, ts.length = 2) ∧
    stitch_all 2 (fun _ _ => ("a", "b")) (fun _ _ => ("d", "x", "t")) (fun _ _ => 0)
      c5_titles 1 1 = .ok c5_batches ∧
    ((generate_addresses 3 5 (fun _ => ("a", "b", "c", "d", "e"))).map (·.address_id)
        = List.range' 5 3 ∧
      ((c5_batches.map (fun b => b.scientists.map (·.scientist_id))).flatten).Perm
          (List.range' 1 (c5_titles.length * 2)) ∧
      (c5_batches.map (fun b => b.phds.map (·.phd_id))).flatten
          = List.range' 1 (total_juniors c5_titles)) :=
  ⟨by decide, by decide, by decide, rfl,
   generated_ids_dense 3 5 (fun _ => ("a", "b", "c", "d", "e")) 2 c5_titles
     (fun _ _ => ("a", "b")) (fun _ _ => ("d", "x", "t")) (fun _ _ => 0) c5_batches
     (by decide) (by decide) (by decide) rfl⟩
